import Mathlib

/-!
Verification of the grpc-plugin runner against its specification.

The Go sources are shallowly embedded: each Go function of interest is
translated into an executable Lean definition over explicit state, and the
claims of the specification are settled as theorems about these definitions.
-/

namespace GrpcPlugin

/-! ## Port manager (runner/internal/pluginrunner/portmanager)

The Go `PortManager` holds a set of used ports and a cursor `lastAssigned`.
`GetPort` advances the cursor (wrapping from above `maxPort` to `minPort`),
skips used ports, bind-tests the candidate, and records a successful lease;
it gives up after `maxAttempts` candidates.  `ReleasePort` rejects ports
outside the range and deletes the lease otherwise.  The OS bind test
(`net.Listen`) is modelled by an oracle `bind : Nat → Bool`. -/

def minPort : Nat := 40000

def maxPort : Nat := 50000

def maxAttempts : Nat := 10

structure PMState where
  usedPorts : List Nat
  lastAssigned : Nat
deriving DecidableEq, Repr

/-- Mirrors `portmanager.New`: empty used set, cursor at `minPort - 1`. -/
def pmNew : PMState := ⟨[], minPort - 1⟩

/-- Result of one `GetPort` call: the returned value, the state after the
call, and how many candidate attempts the loop consumed. -/
structure GetPortResult where
  res : Except String Nat
  state : PMState
  attempts : Nat

def exhaustedMsg : String := "failed to find available port after 10 attempts"

def outOfRangeMsg : String := "port is outside valid range"

/-- Mirrors the cursor advance in `GetPort`: `pm.lastAssigned++` followed by
the wrap `if pm.lastAssigned > maxPort` then reset to `minPort`. -/
def nextCandidate (la : Nat) : Nat :=
  if la + 1 > maxPort then minPort else la + 1

/-- The body of the `GetPort` attempt loop, with the remaining attempt budget
as fuel and a running count of consumed attempts. -/
def getPortLoop (bind : Nat → Bool) : Nat → PMState → Nat → GetPortResult
  | 0, st, used => ⟨.error exhaustedMsg, st, used⟩
  | fuel + 1, st, used =>
    let cand := nextCandidate st.lastAssigned
    let st1 : PMState := ⟨st.usedPorts, cand⟩
    if cand ∈ st1.usedPorts then getPortLoop bind fuel st1 (used + 1)
    else if bind cand then ⟨.ok cand, ⟨cand :: st1.usedPorts, cand⟩, used + 1⟩
    else getPortLoop bind fuel st1 (used + 1)

/-- Mirrors `PortManager.GetPort`. -/
def getPort (bind : Nat → Bool) (st : PMState) : GetPortResult :=
  getPortLoop bind maxAttempts st 0

/-- Mirrors `PortManager.ReleasePort`: reject ports with
`port < minPort || port > maxPort`, otherwise delete the lease. -/
def releasePort (st : PMState) (port : Nat) : Except String Unit × PMState :=
  if port < minPort ∨ port > maxPort then (.error outOfRangeMsg, st)
  else (.ok (), ⟨st.usedPorts.erase port, st.lastAssigned⟩)

/-! Unfolding lemmas for the attempt loop. -/

theorem getPortLoop_first_ok (bind : Nat → Bool) (fuel : Nat) (st : PMState)
    (used : Nat) (hmem : nextCandidate st.lastAssigned ∉ st.usedPorts)
    (hb : bind (nextCandidate st.lastAssigned) = true) :
    getPortLoop bind (fuel + 1) st used =
      ⟨.ok (nextCandidate st.lastAssigned),
       ⟨nextCandidate st.lastAssigned :: st.usedPorts,
        nextCandidate st.lastAssigned⟩, used + 1⟩ := by
  simp only [getPortLoop]
  rw [if_neg hmem, if_pos hb]

theorem getPortLoop_skip (bind : Nat → Bool) (fuel : Nat) (st : PMState)
    (used : Nat)
    (h : nextCandidate st.lastAssigned ∈ st.usedPorts ∨
         bind (nextCandidate st.lastAssigned) = false) :
    getPortLoop bind (fuel + 1) st used =
      getPortLoop bind fuel ⟨st.usedPorts, nextCandidate st.lastAssigned⟩
        (used + 1) := by
  simp only [getPortLoop]
  rcases h with h | h
  · rw [if_pos h]
  · by_cases hmem : nextCandidate st.lastAssigned ∈ st.usedPorts
    · rw [if_pos hmem]
    · rw [if_neg hmem, if_neg (by simp [h])]

theorem getPortLoop_usedPorts_ok (bind : Nat → Bool) :
    ∀ fuel st used p, (getPortLoop bind fuel st used).res = .ok p →
      p ∉ st.usedPorts ∧
      (getPortLoop bind fuel st used).state.usedPorts = p :: st.usedPorts := by
  intro fuel
  induction fuel with
  | zero => intro st used p h; simp [getPortLoop] at h
  | succ n ih =>
    intro st used p h
    by_cases hmem : nextCandidate st.lastAssigned ∈ st.usedPorts
    · rw [getPortLoop_skip bind n st used (Or.inl hmem)] at h ⊢
      exact ih _ _ _ h
    · cases hb : bind (nextCandidate st.lastAssigned) with
      | false =>
        rw [getPortLoop_skip bind n st used (Or.inr hb)] at h ⊢
        exact ih _ _ _ h
      | true =>
        rw [getPortLoop_first_ok bind n st used hmem hb] at h ⊢
        have h3 : (Except.ok (nextCandidate st.lastAssigned) :
            Except String Nat) = .ok p := h
        injection h3 with h4
        subst h4
        exact ⟨hmem, rfl⟩

theorem getPortLoop_usedPorts_error (bind : Nat → Bool) :
    ∀ fuel st used e, (getPortLoop bind fuel st used).res = .error e →
      e = exhaustedMsg ∧
      (getPortLoop bind fuel st used).state.usedPorts = st.usedPorts := by
  intro fuel
  induction fuel with
  | zero =>
    intro st used e h
    have h3 : (Except.error exhaustedMsg : Except String Nat) = .error e := h
    injection h3 with h4
    exact ⟨h4.symm, rfl⟩
  | succ n ih =>
    intro st used e h
    by_cases hmem : nextCandidate st.lastAssigned ∈ st.usedPorts
    · rw [getPortLoop_skip bind n st used (Or.inl hmem)] at h ⊢
      exact ih _ _ _ h
    · cases hb : bind (nextCandidate st.lastAssigned) with
      | false =>
        rw [getPortLoop_skip bind n st used (Or.inr hb)] at h ⊢
        exact ih _ _ _ h
      | true =>
        rw [getPortLoop_first_ok bind n st used hmem hb] at h
        exact absurd h (by simp)

theorem getPortLoop_range (bind : Nat → Bool) :
    ∀ fuel st used, minPort - 1 ≤ st.lastAssigned →
      ∀ p, (getPortLoop bind fuel st used).res = .ok p →
        minPort ≤ p ∧ p ≤ maxPort := by
  intro fuel
  induction fuel with
  | zero => intro st used _ p h; simp [getPortLoop] at h
  | succ n ih =>
    intro st used hla p h
    have hc1 : minPort ≤ nextCandidate st.lastAssigned := by
      simp only [nextCandidate, minPort, maxPort] at hla ⊢
      split <;> omega
    have hc2 : nextCandidate st.lastAssigned ≤ maxPort := by
      simp only [nextCandidate, minPort, maxPort]
      split <;> omega
    have hla1 : minPort - 1 ≤
        (PMState.mk st.usedPorts (nextCandidate st.lastAssigned)).lastAssigned := by
      show minPort - 1 ≤ nextCandidate st.lastAssigned
      omega
    by_cases hmem : nextCandidate st.lastAssigned ∈ st.usedPorts
    · rw [getPortLoop_skip bind n st used (Or.inl hmem)] at h
      exact ih _ _ hla1 p h
    · cases hb : bind (nextCandidate st.lastAssigned) with
      | false =>
        rw [getPortLoop_skip bind n st used (Or.inr hb)] at h
        exact ih _ _ hla1 p h
      | true =>
        rw [getPortLoop_first_ok bind n st used hmem hb] at h
        have h3 : (Except.ok (nextCandidate st.lastAssigned) :
            Except String Nat) = .ok p := h
        injection h3 with h4
        subst h4
        exact ⟨hc1, hc2⟩

theorem getPortLoop_attempts (bind : Nat → Bool) :
    ∀ fuel st used,
      (getPortLoop bind fuel st used).attempts ≤ used + fuel ∧
      (∀ e, (getPortLoop bind fuel st used).res = .error e →
        (getPortLoop bind fuel st used).attempts = used + fuel) := by
  intro fuel
  induction fuel with
  | zero => intro st used; exact ⟨Nat.le_of_eq rfl, fun _ _ => rfl⟩
  | succ n ih =>
    intro st used
    by_cases hmem : nextCandidate st.lastAssigned ∈ st.usedPorts
    · rw [getPortLoop_skip bind n st used (Or.inl hmem)]
      have h := ih ⟨st.usedPorts, nextCandidate st.lastAssigned⟩ (used + 1)
      exact ⟨by have := h.1; omega, fun e he => by have := h.2 e he; omega⟩
    · cases hb : bind (nextCandidate st.lastAssigned) with
      | false =>
        rw [getPortLoop_skip bind n st used (Or.inr hb)]
        have h := ih ⟨st.usedPorts, nextCandidate st.lastAssigned⟩ (used + 1)
        exact ⟨by have := h.1; omega, fun e he => by have := h.2 e he; omega⟩
      | true =>
        rw [getPortLoop_first_ok bind n st used hmem hb]
        exact ⟨by show used + 1 ≤ used + (n + 1); omega,
               fun e he => absurd he (by simp)⟩

/-! Specifications of one `GetPort` and `ReleasePort` call. -/

theorem getPort_ok_spec (bind : Nat → Bool) (st : PMState) (p : Nat)
    (h : (getPort bind st).res = .ok p) :
    p ∉ st.usedPorts ∧ (getPort bind st).state.usedPorts = p :: st.usedPorts :=
  getPortLoop_usedPorts_ok bind maxAttempts st 0 p h

theorem getPort_error_spec (bind : Nat → Bool) (st : PMState) (e : String)
    (h : (getPort bind st).res = .error e) :
    e = exhaustedMsg ∧ (getPort bind st).state.usedPorts = st.usedPorts :=
  getPortLoop_usedPorts_error bind maxAttempts st 0 e h

theorem getPort_attempts_spec (bind : Nat → Bool) (st : PMState) :
    (getPort bind st).attempts ≤ maxAttempts ∧
    (∀ e, (getPort bind st).res = .error e →
      (getPort bind st).attempts = maxAttempts) := by
  have h := getPortLoop_attempts bind maxAttempts st 0
  unfold getPort
  exact ⟨by have := h.1; omega, fun e he => by have := h.2 e he; omega⟩

/-! ## Traces of port-manager operations

A trace interleaves `GetPort` calls (each with its own bind oracle) and
`ReleasePort` calls.  Events record what each call returned; `leasedOf`
recovers, from the events alone, the ports returned by a `GetPort` with no
later accepted `ReleasePort`. -/

inductive PMOp where
  | acquire (bind : Nat → Bool)
  | release (p : Nat)

inductive PMEvent where
  | acquired (p : Nat)
  | acquireFailed
  | released (p : Nat)
  | releaseRejected (p : Nat)

def runPM : PMState → List PMOp → PMState × List PMEvent
  | st, [] => (st, [])
  | st, PMOp.acquire bind :: rest =>
    let g := getPort bind st
    let next := runPM g.state rest
    (next.1, (match g.res with
      | .ok p => PMEvent.acquired p
      | .error _ => PMEvent.acquireFailed) :: next.2)
  | st, PMOp.release p :: rest =>
    let r := releasePort st p
    let next := runPM r.2 rest
    (next.1, (match r.1 with
      | .ok _ => PMEvent.released p
      | .error _ => PMEvent.releaseRejected p) :: next.2)

def applyEvent (acc : List Nat) : PMEvent → List Nat
  | .acquired p => p :: acc
  | .released p => acc.erase p
  | .acquireFailed => acc
  | .releaseRejected _ => acc

/-- The ports acquired and not subsequently released, read off the events. -/
def leasedOf (evs : List PMEvent) : List Nat := evs.foldl applyEvent []

theorem runPM_usedPorts :
    ∀ ops st, (runPM st ops).1.usedPorts =
      (runPM st ops).2.foldl applyEvent st.usedPorts := by
  intro ops
  induction ops with
  | nil => intro st; rfl
  | cons op rest ih =>
    intro st
    cases op with
    | acquire bind =>
      cases hres : (getPort bind st).res with
      | ok p =>
        have hst := (getPort_ok_spec bind st p hres).2
        simp only [runPM, hres, List.foldl_cons, applyEvent]
        rw [ih, hst]
      | error e =>
        have hst := (getPort_error_spec bind st e hres).2
        simp only [runPM, hres, List.foldl_cons, applyEvent]
        rw [ih, hst]
    | release p =>
      by_cases hp : p < minPort ∨ p > maxPort
      · simp only [runPM, releasePort, if_pos hp, List.foldl_cons, applyEvent]
        exact ih st
      · simp only [runPM, releasePort, if_neg hp, List.foldl_cons, applyEvent]
        exact ih _

/-- A port-manager state is reachable when some trace of operations starting
from the fresh manager produces it. -/
def ReachablePM (st : PMState) : Prop :=
  ∃ ops, (runPM pmNew ops).1 = st

theorem runPM_append (l1 : List PMOp) :
    ∀ st l2, (runPM st (l1 ++ l2)).1 = (runPM (runPM st l1).1 l2).1 := by
  induction l1 with
  | nil => intro st l2; rfl
  | cons op rest ih =>
    intro st l2
    cases op with
    | acquire bind => simp only [List.cons_append, runPM]; exact ih _ _
    | release p => simp only [List.cons_append, runPM]; exact ih _ _

/-- Every state with an empty lease set and cursor `39999 + n` for
`n ≤ 10000` is reachable: repeatedly acquire the next port (with an
always-succeeding bind test) and release it again. -/
theorem reachable_empty_cursor :
    ∀ n, n ≤ 10000 → ReachablePM ⟨[], 39999 + n⟩ := by
  intro n
  induction n with
  | zero => intro _; exact ⟨[], rfl⟩
  | succ k ih =>
    intro hk
    obtain ⟨ops, hops⟩ := ih (by omega)
    refine ⟨ops ++ [PMOp.acquire (fun _ => true), PMOp.release (40000 + k)], ?_⟩
    rw [runPM_append, hops]
    have hc : nextCandidate ((⟨[], 39999 + k⟩ : PMState).lastAssigned)
        = 40000 + k := by
      show nextCandidate (39999 + k) = 40000 + k
      simp only [nextCandidate, minPort, maxPort]
      split <;> omega
    have hg : getPort (fun _ => true) ⟨[], 39999 + k⟩
        = ⟨.ok (40000 + k), ⟨[40000 + k], 40000 + k⟩, 1⟩ := by
      have h := getPortLoop_first_ok (fun _ => true) 9 ⟨[], 39999 + k⟩ 0
        (by rw [hc]; simp) rfl
      rw [hc] at h
      exact h
    show (releasePort (getPort (fun _ => true) ⟨[], 39999 + k⟩).state
        (40000 + k)).2 = ⟨[], 39999 + (k + 1)⟩
    rw [hg]
    have hrel : ¬ (40000 + k < minPort ∨ 40000 + k > maxPort) := by
      simp only [minPort, maxPort]; omega
    simp only [releasePort, if_neg hrel]
    show (⟨[40000 + k].erase (40000 + k), 40000 + k⟩ : PMState) = _
    rw [List.erase_cons_head]
    have hn : 40000 + k = 39999 + (k + 1) := by omega
    rw [hn]

/-- C5 counterexample: the claim puts every acquired port in `[40000, 50000)`
and makes `ReleasePort` fail for every port outside that set.  The code uses
the inclusive bound `maxPort = 50000` on both sides: `ReleasePort 50000`
succeeds, and from the reachable state with cursor 49999 the next `GetPort`
returns port 50000 itself. -/
theorem c5_inclusive_bound_counterexample :
    (releasePort pmNew 50000).1 = .ok () ∧
    ReachablePM ⟨[], 49999⟩ ∧
    (getPort (fun _ => true) ⟨[], 49999⟩).res = .ok 50000 := by
  refine ⟨rfl, ?_, rfl⟩
  exact reachable_empty_cursor 10000 (by omega)

/-- C5 (amended): every port returned by `GetPort` lies in the inclusive
range `[40000, 50000]`, and `ReleasePort p` succeeds exactly when
`40000 ≤ p ∧ p ≤ 50000`, failing with the out-of-range error otherwise. -/
theorem c5_port_range (st : PMState) (bind : Nat → Bool)
    (hla : minPort - 1 ≤ st.lastAssigned) :
    (∀ p, (getPort bind st).res = .ok p → 40000 ≤ p ∧ p ≤ 50000) ∧
    (∀ q, (releasePort st q).1 = .ok () ↔ (40000 ≤ q ∧ q ≤ 50000)) := by
  constructor
  · intro p hp
    exact getPortLoop_range bind maxAttempts st 0 hla p hp
  · intro q
    constructor
    · intro h
      by_cases hq : q < minPort ∨ q > maxPort
      · simp [releasePort, hq] at h
      · unfold minPort maxPort at hq; omega
    · intro h
      have hq : ¬ (q < minPort ∨ q > maxPort) := by
        unfold minPort maxPort; omega
      simp [releasePort, hq]

/-- Witness for `c5_port_range` at the fresh manager and an always-binding
oracle. -/
theorem c5_port_range_witness :
    (40000 ≤ 40000 ∧ 40000 ≤ 50000) ∧ (releasePort pmNew 40000).1 = .ok () := by
  have h := c5_port_range pmNew (fun _ => true) (by decide)
  exact ⟨h.1 40000 rfl, (h.2 40000).mpr (by decide)⟩

/-- C6: over any trace of operations on one manager, a further `GetPort`
never returns a port that an earlier `GetPort` returned without an
intervening `ReleasePort` of that port; and a failing `GetPort` fails with
the exhaustion error after exactly the 10-candidate budget (never more than
10 attempts). -/
theorem c6_no_double_lease (ops : List PMOp) (bind : Nat → Bool) :
    (∀ p, (getPort bind (runPM pmNew ops).1).res = .ok p →
      p ∉ leasedOf (runPM pmNew ops).2) ∧
    (getPort bind (runPM pmNew ops).1).attempts ≤ maxAttempts ∧
    (∀ e, (getPort bind (runPM pmNew ops).1).res = .error e →
      e = exhaustedMsg ∧
      (getPort bind (runPM pmNew ops).1).attempts = maxAttempts) := by
  refine ⟨?_, (getPort_attempts_spec bind _).1, ?_⟩
  · intro p hp
    have hfresh := (getPort_ok_spec bind _ p hp).1
    have hinv : (runPM pmNew ops).1.usedPorts = leasedOf (runPM pmNew ops).2 :=
      runPM_usedPorts ops pmNew
    exact hinv ▸ hfresh
  · intro e he
    exact ⟨(getPort_error_spec bind _ e he).1,
           (getPort_attempts_spec bind _).2 e he⟩

/-- Witness for `c6_no_double_lease` on the empty trace. -/
theorem c6_no_double_lease_witness :
    40000 ∉ leasedOf (runPM pmNew []).2 ∧
    (getPort (fun _ => true) (runPM pmNew []).1).attempts ≤ maxAttempts := by
  have h := c6_no_double_lease [] (fun _ => true)
  exact ⟨h.1 40000 rfl, h.2.1⟩

/-- C10: releasing an in-range port that is not currently leased succeeds and
leaves the manager state unchanged; `ReleasePort` never checks that the port
was actually acquired. -/
theorem c10_release_unleased_noop (st : PMState) (p : Nat)
    (h1 : 40000 ≤ p) (h2 : p ≤ 50000) (h3 : p ∉ st.usedPorts) :
    (releasePort st p).1 = .ok () ∧ (releasePort st p).2 = st := by
  have hp : ¬ (p < minPort ∨ p > maxPort) := by
    unfold minPort maxPort; omega
  refine ⟨by simp [releasePort, hp], ?_⟩
  simp only [releasePort, if_neg hp]
  show (⟨st.usedPorts.erase p, st.lastAssigned⟩ : PMState) = st
  rw [List.erase_of_not_mem h3]

/-- Witness for `c10_release_unleased_noop` at the fresh manager. -/
theorem c10_release_unleased_noop_witness :
    (releasePort pmNew 40000).1 = .ok () ∧ (releasePort pmNew 40000).2 = pmNew :=
  c10_release_unleased_noop pmNew 40000 (by decide) (by decide) (by decide)

/-! ## Manifest plugin validation (pkgs/config, `ManifestPlugin.Validate`)

The Go validator rejects an empty path; then, only for non-absolute paths,
rejects paths containing the substring ".." unless the environment variable
`GRPC_PLUGINS_ALLOW_RELATIVE_PATHS_DOUBLE_DOT` equals "true"; then checks the
kind.  `os.Getenv` of an unset variable returns "", so the environment is
modelled as the string value `env`. -/

structure ManifestPlugin where
  name : String
  path : String
  kind : String
deriving DecidableEq, Repr

/-- Mirrors `strings.Contains(path, "..")`: two consecutive dots occur. -/
def hasDotDot : List Char → Bool
  | '.' :: '.' :: _ => true
  | _ :: rest => hasDotDot rest
  | [] => false

/-- Mirrors `filepath.IsAbs` on Unix: the path starts with a slash. -/
def isAbsPath (p : String) : Bool :=
  match p.data with
  | '/' :: _ => true
  | _ => false

/-- Mirrors `ManifestPlugin.Validate` (pkgs/config manifest code). -/
def validatePlugin (p : ManifestPlugin) (env : String) : Except String Unit :=
  if p.path = "" then .error "plugin path cannot be empty"
  else if !isAbsPath p.path && hasDotDot p.path.data && !(env == "true") then
    .error "plugin path cannot contain double dot"
  else match p.kind with
    | "build_and_run" => .ok ()
    | "" => .error "plugin kind cannot be empty"
    | _ => .error "unsupported plugin kind"

/-- C7 counterexample: the claim says every plugin path containing ".." is
rejected when the environment flag is unset.  The code only applies the dot
check to non-absolute paths, so the absolute path "/a/../b" passes
validation with the flag unset. -/
theorem c7_absolute_dotdot_accepted :
    validatePlugin ⟨"", "/a/../b", "build_and_run"⟩ "" = .ok () ∧
    hasDotDot "/a/../b".data = true := by
  exact ⟨rfl, rfl⟩

/-- C7 (amended): validation succeeds exactly when the path is nonempty, the
kind is the supported one, and the path is absolute, dot-dot-free, or the
environment flag equals "true"; in particular a relative path containing
".." is rejected for every flag value other than "true", and absolute paths
containing ".." are always accepted. -/
theorem c7_dotdot_gate (p : ManifestPlugin) (env : String) :
    validatePlugin p env = .ok () ↔
      (p.path ≠ "" ∧ p.kind = "build_and_run" ∧
       (isAbsPath p.path = true ∨ hasDotDot p.path.data = false ∨
        env = "true")) := by
  unfold validatePlugin
  by_cases h1 : p.path = ""
  · rw [if_pos h1]
    simp [h1]
  · rw [if_neg h1]
    by_cases h2 : (!isAbsPath p.path && hasDotDot p.path.data
        && !(env == "true")) = true
    · rw [if_pos h2]
      simp only [Bool.and_eq_true, Bool.not_eq_true'] at h2
      constructor
      · intro h; cases h
      · intro h
        rcases h.2.2 with ha | hd | he
        · rw [h2.1.1] at ha; cases ha
        · rw [h2.1.2] at hd; cases hd
        · rw [he] at h2
          simp at h2
    · rw [if_neg h2]
      simp only [Bool.and_eq_true, Bool.not_eq_true'] at h2
      have hside : isAbsPath p.path = true ∨ hasDotDot p.path.data = false ∨
          env = "true" := by
        by_cases ha : isAbsPath p.path = true
        · exact Or.inl ha
        · by_cases hd : hasDotDot p.path.data = false
          · exact Or.inr (Or.inl hd)
          · refine Or.inr (Or.inr ?_)
            by_cases he : env = "true"
            · exact he
            · exfalso
              apply h2
              refine ⟨⟨?_, ?_⟩, ?_⟩
              · cases hav : isAbsPath p.path
                · rfl
                · exact absurd hav ha
              · cases hdv : hasDotDot p.path.data
                · exact absurd hdv hd
                · rfl
              · cases hev : env == "true"
                · rfl
                · exact absurd (by simpa using hev) he
      constructor
      · intro h
        refine ⟨h1, ?_, hside⟩
        split at h
        · assumption
        · cases h
        · cases h
      · intro h
        rw [h.2.1]
        rfl

/-- Witness for `c7_dotdot_gate`: a relative path containing ".." with the
flag unset is rejected, and the same path with the flag set to "true" is
accepted. -/
theorem c7_dotdot_gate_witness :
    validatePlugin ⟨"", "../x", "build_and_run"⟩ "" ≠ .ok () ∧
    validatePlugin ⟨"", "../x", "build_and_run"⟩ "true" = .ok () := by
  constructor
  · intro h
    have := (c7_dotdot_gate ⟨"", "../x", "build_and_run"⟩ "").mp h
    rcases this.2.2 with ha | hd | he
    · exact absurd ha (by decide)
    · exact absurd hd (by decide)
    · exact absurd he (by decide)
  · exact (c7_dotdot_gate ⟨"", "../x", "build_and_run"⟩ "true").mpr
      (by refine ⟨by decide, rfl, Or.inr (Or.inr rfl)⟩)

/-! ## JSON values and Go maps

Structured encodings are modelled at the JSON-tree level: `json.Marshal` of
the records in scope produces a tree and `json.Unmarshal` consumes one.  Go
decodes every JSON number to float64; the numeric payloads occurring here
are integers, carried as `Int`.  A Go `map[string]interface` value is an
association list whose insert overwrites an existing key in place. -/

inductive Json where
  | str (s : String)
  | num (n : Int)
  | jbool (b : Bool)
  | null
  | obj (fields : List (String × Json))

def lookupField : List (String × Json) → String → Option Json
  | [], _ => none
  | kv :: rest, k => if kv.1 = k then some kv.2 else lookupField rest k

/-- Go map insert: overwrite the key in place, else append. -/
def mapInsertJ (k : String) (v : Json) :
    List (String × Json) → List (String × Json)
  | [] => [(k, v)]
  | kv :: rest =>
    if kv.1 = k then (kv.1, v) :: rest else kv :: mapInsertJ k v rest

theorem mapInsertJ_append (k : String) (v : Json) :
    ∀ m : List (String × Json), (∀ kv ∈ m, kv.1 ≠ k) →
      mapInsertJ k v m = m ++ [(k, v)] := by
  intro m
  induction m with
  | nil => intro _; rfl
  | cons kv rest ih =>
    intro h
    simp only [mapInsertJ]
    rw [if_neg (h kv (List.mem_cons_self kv rest))]
    rw [ih (fun kv2 hkv2 => h kv2 (List.mem_cons_of_mem _ hkv2))]
    rfl

/-! ## Logger options (pkgs/config, `LoggerOptions`)

`slog.Value` payloads are modelled by `SValue`; `attr.Value.Any()` followed
by `json.Marshal` maps them to JSON, and `slog.AnyValue` applied to a
JSON-decoded Go value maps back.  A decoded JSON number is a Go float64, so
integer-typed attribute values come back as `vFloat`. -/

inductive SValue where
  | vStr (s : String)
  | vInt (n : Int)
  | vFloat (n : Int)
  | vBool (b : Bool)
  | vNull
deriving DecidableEq, Repr

structure SAttr where
  key : String
  value : SValue
deriving DecidableEq, Repr

structure LoggerOptions where
  type : String
  level : Option Int
  attributes : List SAttr
deriving DecidableEq, Repr

def valueToJson : SValue → Json
  | .vStr s => .str s
  | .vInt n => .num n
  | .vFloat n => .num n
  | .vBool b => .jbool b
  | .vNull => .null

/-- Mirrors `slog.AnyValue` applied to a JSON-decoded Go value. -/
def anyFromJson : Json → SValue
  | .str s => .vStr s
  | .num n => .vFloat n
  | .jbool b => .vBool b
  | _ => .vNull

/-- Mirrors `LoggerOptions.MarshalJSON`: a JSON object carrying the type,
the level when present, and the attributes collected into a Go map. -/
def marshalLoggerOptions (l : LoggerOptions) : Json :=
  .obj ([("type", .str l.type)] ++
    (match l.level with
      | some lv => [("level", .num lv)]
      | none => []) ++
    [("attributes", .obj (l.attributes.foldl
      (fun m a => mapInsertJ a.key (valueToJson a.value) m) []))])

inductive UnmarshalOutcome where
  | ok (l : LoggerOptions)
  | err (e : String)
  | panicked
deriving DecidableEq, Repr

/-- The attributes part of `LoggerOptions.UnmarshalJSON`: absent means no
attributes; a non-object value is an error; an object becomes one attribute
per entry. -/
def unmarshalAttrs (m : List (String × Json)) (t : String)
    (lvl : Option Int) : UnmarshalOutcome :=
  match lookupField m "attributes" with
  | none => .ok ⟨t, lvl, []⟩
  | some (.obj am) =>
    .ok ⟨t, lvl, am.map (fun kv => SAttr.mk kv.1 (anyFromJson kv.2))⟩
  | some _ => .err "attributes is not a map"

/-- Mirrors `LoggerOptions.UnmarshalJSON`.  The Go code reads fields from a
decoded `map[string]interface` value; the unchecked type assertion on the
"type" field panics when it is absent or not a string. -/
def unmarshalLoggerOptions (j : Json) : UnmarshalOutcome :=
  match j with
  | .obj m =>
    match lookupField m "type" with
    | some (.str t) =>
      match lookupField m "level" with
      | some (.num n) => unmarshalAttrs m t (some n)
      | none => unmarshalAttrs m t none
      | some _ => .err "level is not an integer"
    | _ => .panicked
  | _ => .err "unmarshal target is not an object"

/-- C9 counterexample: the round trip does not preserve the attribute list.
Duplicate attribute keys collapse to the last occurrence because marshalling
goes through a Go map, and an integer-typed attribute value comes back as a
float because JSON numbers decode to float64. -/
theorem c9_roundtrip_counterexample :
    unmarshalLoggerOptions (marshalLoggerOptions ⟨"text", none,
      [⟨"k", .vStr "a"⟩, ⟨"k", .vStr "b"⟩]⟩) =
      .ok ⟨"text", none, [⟨"k", .vStr "b"⟩]⟩ ∧
    ([⟨"k", .vStr "b"⟩] : List SAttr) ≠ [⟨"k", .vStr "a"⟩, ⟨"k", .vStr "b"⟩] ∧
    unmarshalLoggerOptions (marshalLoggerOptions
      ⟨"text", none, [⟨"n", .vInt 5⟩]⟩) =
      .ok ⟨"text", none, [⟨"n", .vFloat 5⟩]⟩ ∧
    SValue.vFloat 5 ≠ SValue.vInt 5 := by
  exact ⟨rfl, by decide, rfl, by decide⟩

/-- Round-tripping one attribute through the Go map and JSON decoding. -/
def coerceAttr (a : SAttr) : SAttr :=
  ⟨a.key, anyFromJson (valueToJson a.value)⟩

theorem foldl_mapInsertJ (as : List SAttr) :
    ∀ m : List (String × Json),
      (∀ a ∈ as, ∀ kv ∈ m, kv.1 ≠ a.key) →
      (as.map (fun a => a.key)).Nodup →
      as.foldl (fun acc a => mapInsertJ a.key (valueToJson a.value) acc) m =
        m ++ as.map (fun a => (a.key, valueToJson a.value)) := by
  induction as with
  | nil => intro m _ _; simp
  | cons a rest ih =>
    intro m hdisj hnd
    simp only [List.map_cons, List.nodup_cons] at hnd
    simp only [List.foldl_cons]
    rw [mapInsertJ_append a.key (valueToJson a.value) m
      (fun kv hkv => hdisj a (List.mem_cons_self a rest) kv hkv)]
    have hd2 : ∀ a2 ∈ rest, ∀ kv ∈ m ++ [(a.key, valueToJson a.value)],
        kv.1 ≠ a2.key := by
      intro a2 ha2 kv hkv
      rcases List.mem_append.mp hkv with hkm | hks
      · exact hdisj a2 (List.mem_cons_of_mem _ ha2) kv hkm
      · have hkv2 : kv = (a.key, valueToJson a.value) := by simpa using hks
        subst hkv2
        intro hcontra
        have hcontra2 : a.key = a2.key := hcontra
        exact hnd.1 (by rw [hcontra2]; exact List.mem_map_of_mem _ ha2)
    rw [ih (m ++ [(a.key, valueToJson a.value)]) hd2 hnd.2]
    simp

/-- C9 (amended): the round trip preserves the type and the level always;
when the attribute keys are pairwise distinct it preserves the attribute
list up to the JSON value coercion `coerceAttr` (string, bool and float
values unchanged; integer values come back as floats).  With duplicate keys
the map collapses them to the last occurrence. -/
theorem c9_roundtrip_distinct_keys (l : LoggerOptions)
    (h : (l.attributes.map (fun a => a.key)).Nodup) :
    unmarshalLoggerOptions (marshalLoggerOptions l) =
      .ok ⟨l.type, l.level, l.attributes.map coerceAttr⟩ := by
  have hfold := foldl_mapInsertJ l.attributes []
    (by intro a _ kv hkv; cases hkv) h
  cases hl : l.level with
  | none =>
    simp only [marshalLoggerOptions, hl, List.nil_append, List.cons_append,
      List.append_nil]
    rw [hfold]
    show UnmarshalOutcome.ok ⟨l.type, none,
        (l.attributes.map (fun a => (a.key, valueToJson a.value))).map
          (fun kv => SAttr.mk kv.1 (anyFromJson kv.2))⟩ =
      UnmarshalOutcome.ok ⟨l.type, none, l.attributes.map coerceAttr⟩
    rw [List.map_map]
    rfl
  | some lv =>
    simp only [marshalLoggerOptions, hl, List.nil_append, List.cons_append,
      List.append_nil]
    rw [hfold]
    show UnmarshalOutcome.ok ⟨l.type, some lv,
        (l.attributes.map (fun a => (a.key, valueToJson a.value))).map
          (fun kv => SAttr.mk kv.1 (anyFromJson kv.2))⟩ =
      UnmarshalOutcome.ok ⟨l.type, some lv, l.attributes.map coerceAttr⟩
    rw [List.map_map]
    rfl

/-- Witness for `c9_roundtrip_distinct_keys` on a one-attribute record. -/
theorem c9_roundtrip_distinct_keys_witness :
    (([⟨"k", SValue.vStr "v"⟩] : List SAttr).map (fun a => a.key)).Nodup ∧
    unmarshalLoggerOptions (marshalLoggerOptions
      ⟨"json", some 4, [⟨"k", .vStr "v"⟩]⟩) =
      .ok ⟨"json", some 4,
        ([⟨"k", SValue.vStr "v"⟩] : List SAttr).map coerceAttr⟩ :=
  ⟨by decide, c9_roundtrip_distinct_keys ⟨"json", some 4, [⟨"k", .vStr "v"⟩]⟩
    (by decide)⟩

/-! ## Bytes and base64 (encoding/base64 `StdEncoding`)

Raw certificate and key material is a list of bytes.  `Serialize` base64
encodes it; `DeserializeKeyAndCert` decodes it back.  The encoder and
decoder below implement the standard base64 alphabet with padding. -/

abbrev Byte := Fin 256

def mkByte (n : Nat) : Byte := ⟨n % 256, Nat.mod_lt n (by omega)⟩

theorem mkByte_eq (x : Nat) (b : Byte) (h : x % 256 = b.val) : mkByte x = b :=
  Fin.ext h

def b64Alphabet : List Char :=
  "ABCDEFGHIJKLMNOPQRSTUVWXYZabcdefghijklmnopqrstuvwxyz0123456789+/".data

def encChar (n : Nat) : Char := b64Alphabet.getD n '?'

def decChar (c : Char) : Option Nat := b64Alphabet.findIdx? (fun x => x == c)

theorem decChar_encChar_fin : ∀ n : Fin 64, decChar (encChar n.val) = some n.val := by
  decide

theorem decChar_encChar_lt (n : Nat) (h : n < 64) : decChar (encChar n) = some n :=
  decChar_encChar_fin ⟨n, h⟩

theorem encChar_ne_pad_fin : ∀ n : Fin 64, encChar n.val ≠ '=' := by
  decide

theorem encChar_ne_pad (n : Nat) (h : n < 64) : encChar n ≠ '=' :=
  encChar_ne_pad_fin ⟨n, h⟩

def b64encode : List Byte → List Char
  | [] => []
  | [b1] => [encChar (b1.val / 4), encChar (b1.val % 4 * 16), '=', '=']
  | [b1, b2] => [encChar (b1.val / 4), encChar (b1.val % 4 * 16 + b2.val / 16),
                 encChar (b2.val % 16 * 4), '=']
  | b1 :: b2 :: b3 :: rest =>
    encChar (b1.val / 4) :: encChar (b1.val % 4 * 16 + b2.val / 16) ::
    encChar (b2.val % 16 * 4 + b3.val / 64) :: encChar (b3.val % 64) ::
    b64encode rest

def b64decode : List Char → Option (List Byte)
  | [] => some []
  | c1 :: c2 :: c3 :: c4 :: rest =>
    if c3 = '=' ∧ c4 = '=' ∧ rest = [] then
      match decChar c1, decChar c2 with
      | some s1, some s2 => some [mkByte (s1 * 4 + s2 / 16)]
      | _, _ => none
    else if c4 = '=' ∧ rest = [] then
      match decChar c1, decChar c2, decChar c3 with
      | some s1, some s2, some s3 =>
        some [mkByte (s1 * 4 + s2 / 16), mkByte (s2 % 16 * 16 + s3 / 4)]
      | _, _, _ => none
    else
      match decChar c1, decChar c2, decChar c3, decChar c4, b64decode rest with
      | some s1, some s2, some s3, some s4, some tail =>
        some (mkByte (s1 * 4 + s2 / 16) :: mkByte (s2 % 16 * 16 + s3 / 4) ::
              mkByte (s3 % 4 * 64 + s4) :: tail)
      | _, _, _, _, _ => none
  | _ => none

theorem b64_roundtrip : ∀ bs : List Byte, b64decode (b64encode bs) = some bs
  | [] => rfl
  | [b1] => by
    have hb1 := b1.isLt
    show b64decode [encChar (b1.val / 4), encChar (b1.val % 4 * 16), '=', '=']
      = some [b1]
    simp only [b64decode]
    rw [if_pos ⟨trivial, trivial, trivial⟩,
        decChar_encChar_lt (b1.val / 4) (by omega),
        decChar_encChar_lt (b1.val % 4 * 16) (by omega)]
    show some [mkByte (b1.val / 4 * 4 + b1.val % 4 * 16 / 16)] = some [b1]
    rw [mkByte_eq _ b1 (by omega)]
  | [b1, b2] => by
    have hb1 := b1.isLt
    have hb2 := b2.isLt
    show b64decode [encChar (b1.val / 4), encChar (b1.val % 4 * 16 + b2.val / 16),
        encChar (b2.val % 16 * 4), '='] = some [b1, b2]
    simp only [b64decode]
    rw [if_neg (fun hc => encChar_ne_pad (b2.val % 16 * 4) (by omega) hc.1),
        if_pos ⟨trivial, trivial⟩,
        decChar_encChar_lt (b1.val / 4) (by omega),
        decChar_encChar_lt (b1.val % 4 * 16 + b2.val / 16) (by omega),
        decChar_encChar_lt (b2.val % 16 * 4) (by omega)]
    show some [mkByte (b1.val / 4 * 4 + (b1.val % 4 * 16 + b2.val / 16) / 16),
        mkByte ((b1.val % 4 * 16 + b2.val / 16) % 16 * 16 + b2.val % 16 * 4 / 4)]
      = some [b1, b2]
    rw [mkByte_eq _ b1 (by omega), mkByte_eq _ b2 (by omega)]
  | b1 :: b2 :: b3 :: rest => by
    have hb1 := b1.isLt
    have hb2 := b2.isLt
    have hb3 := b3.isLt
    have ih := b64_roundtrip rest
    show b64decode (encChar (b1.val / 4) ::
        encChar (b1.val % 4 * 16 + b2.val / 16) ::
        encChar (b2.val % 16 * 4 + b3.val / 64) :: encChar (b3.val % 64) ::
        b64encode rest) = some (b1 :: b2 :: b3 :: rest)
    simp only [b64decode]
    rw [if_neg (fun hc => encChar_ne_pad (b2.val % 16 * 4 + b3.val / 64)
          (by omega) hc.1),
        if_neg (fun hc => encChar_ne_pad (b3.val % 64) (by omega) hc.1),
        decChar_encChar_lt (b1.val / 4) (by omega),
        decChar_encChar_lt (b1.val % 4 * 16 + b2.val / 16) (by omega),
        decChar_encChar_lt (b2.val % 16 * 4 + b3.val / 64) (by omega),
        decChar_encChar_lt (b3.val % 64) (by omega), ih]
    show some (mkByte (b1.val / 4 * 4 + (b1.val % 4 * 16 + b2.val / 16) / 16) ::
        mkByte ((b1.val % 4 * 16 + b2.val / 16) % 16 * 16 +
          (b2.val % 16 * 4 + b3.val / 64) / 4) ::
        mkByte ((b2.val % 16 * 4 + b3.val / 64) % 4 * 64 + b3.val % 64) :: rest)
      = some (b1 :: b2 :: b3 :: rest)
    rw [mkByte_eq _ b1 (by omega), mkByte_eq _ b2 (by omega),
        mkByte_eq _ b3 (by omega)]

/-! ## PKCS1 private keys (crypto/x509, Go standard library)

The RSA private key is carried by its numeric components.  The Go marshaller
and parser are modelled by an injective byte serialization with a computable
inverse: each number is written base 255 with a 255 terminator byte. -/

structure RSAPrivateKey where
  n : Nat
  e : Nat
  d : Nat
deriving DecidableEq, Repr

def b255digit (n : Nat) : Byte := ⟨n % 255, by omega⟩

def byteStop : Byte := ⟨255, by omega⟩

def natToB255 (n : Nat) : List Byte :=
  if n = 0 then [] else b255digit n :: natToB255 (n / 255)
decreasing_by omega

def encodeNatBytes (n : Nat) : List Byte := natToB255 n ++ [byteStop]

def readNatBytes : List Byte → Option (Nat × List Byte)
  | [] => none
  | b :: rest =>
    if b.val = 255 then some (0, rest)
    else match readNatBytes rest with
      | some (v, r) => some (b.val + v * 255, r)
      | none => none

theorem readNatBytes_encode (n : Nat) : ∀ tail,
    readNatBytes (natToB255 n ++ byteStop :: tail) = some (n, tail) := by
  induction n using Nat.strong_induction_on with
  | _ n ih =>
    intro tail
    by_cases h : n = 0
    · subst h
      rw [natToB255, if_pos rfl]
      show readNatBytes (byteStop :: tail) = some (0, tail)
      simp only [readNatBytes]
      rw [if_pos (show byteStop.val = 255 from rfl)]
    · rw [natToB255, if_neg h]
      show readNatBytes (b255digit n :: (natToB255 (n / 255) ++ byteStop :: tail))
        = some (n, tail)
      simp only [readNatBytes]
      rw [if_neg (show ¬ (b255digit n).val = 255 by show ¬ n % 255 = 255; omega)]
      rw [ih (n / 255) (by omega) tail]
      show some ((b255digit n).val + n / 255 * 255, tail) = some (n, tail)
      have hv : (b255digit n).val + n / 255 * 255 = n := by
        show n % 255 + n / 255 * 255 = n
        omega
      rw [hv]

/-- Models `x509.MarshalPKCS1PrivateKey` (Go standard library, outside this
repository): an injective byte serialization of the key components. -/
def marshalPKCS1 (k : RSAPrivateKey) : List Byte :=
  encodeNatBytes k.n ++ encodeNatBytes k.e ++ encodeNatBytes k.d

/-- Models `x509.ParsePKCS1PrivateKey`: the inverse parser; it fails on empty
or malformed input. -/
def parsePKCS1 (bs : List Byte) : Option RSAPrivateKey :=
  match readNatBytes bs with
  | none => none
  | some (n, r1) =>
    match readNatBytes r1 with
    | none => none
    | some (e, r2) =>
      match readNatBytes r2 with
      | none => none
      | some (d, r3) => if r3 = [] then some ⟨n, e, d⟩ else none

theorem parsePKCS1_marshal (k : RSAPrivateKey) :
    parsePKCS1 (marshalPKCS1 k) = some k := by
  unfold marshalPKCS1 parsePKCS1 encodeNatBytes
  simp only [List.append_assoc, List.singleton_append, List.cons_append,
    List.nil_append, readNatBytes_encode]
  rfl

theorem parsePKCS1_nil : parsePKCS1 [] = none := rfl

/-! ## Certificates and leaf credentials (internal/transport/pki.go)

A parsed certificate is identified by its raw DER bytes.
`x509.ParseCertificate` (Go standard library) is modelled as succeeding
exactly on nonempty input carrying the DER SEQUENCE tag 0x30, returning a
certificate whose `Raw` field is the input. -/

structure Certificate where
  raw : List Byte
deriving DecidableEq, Repr

def parseCertificate (bs : List Byte) : Option Certificate :=
  match bs with
  | b :: _ => if b.val = 48 then some ⟨bs⟩ else none
  | [] => none

/-- Mirrors `transport.KeyAndCert`. -/
structure KeyAndCert where
  cn : String
  key : RSAPrivateKey
  caCert : Certificate
  caCertBytes : List Byte
  cert : Certificate
  certBytes : List Byte
deriving DecidableEq, Repr

/-- Mirrors `KeyAndCert.Serialize` (pki.go): base64 of the raw leaf bytes,
the raw CA bytes and the PKCS1 key, plus the common name, marshalled as a
JSON object with the struct field tags as keys. -/
def serializeKeyAndCert (k : KeyAndCert) : Json :=
  .obj [("cert_bytes", .str (String.mk (b64encode k.cert.raw))),
        ("ca_cert_bytes", .str (String.mk (b64encode k.caCert.raw))),
        ("private_key_pkcs1", .str (String.mk (b64encode (marshalPKCS1 k.key)))),
        ("cn", .str k.cn)]

/-- Reading one string field of `KeyAndCertSerialized` during
`json.Unmarshal`: a missing field keeps the zero value "", a non-string
value is a decode error. -/
def getStrField (m : List (String × Json)) (k : String) : Option String :=
  match lookupField m k with
  | none => some ""
  | some (.str s) => some s
  | some _ => none

/-- The tail of `DeserializeKeyAndCert` after JSON decoding, in source
order: decode the three base64 fields, parse the key, then parse both
certificates. -/
def deserializeFromFields (cb cab pkb cn : String) : Except String KeyAndCert :=
  match b64decode cb.data with
  | none => .error "failed to decode certificate bytes from base64"
  | some certBytes =>
    match b64decode cab.data with
    | none => .error "failed to decode CA certificate bytes from base64"
    | some caCertBytes =>
      match b64decode pkb.data with
      | none => .error "failed to decode private key from base64"
      | some keyBytes =>
        match parsePKCS1 keyBytes with
        | none => .error "failed to parse PKCS1 private key"
        | some key =>
          match parseCertificate certBytes with
          | none => .error "failed to parse certificate"
          | some cert =>
            match parseCertificate caCertBytes with
            | none => .error "failed to parse CA certificate"
            | some caCert => .ok ⟨cn, key, caCert, caCertBytes, cert, certBytes⟩

/-- Mirrors `transport.DeserializeKeyAndCert` (pki.go).  The input is the
JSON-decoded wire value; `none` models input that is not valid JSON. -/
def deserializeKeyAndCert (inp : Option Json) : Except String KeyAndCert :=
  match inp with
  | none => .error "failed to unmarshal key and cert data from JSON"
  | some (.obj m) =>
    match getStrField m "cert_bytes", getStrField m "ca_cert_bytes",
          getStrField m "private_key_pkcs1", getStrField m "cn" with
    | some cb, some cab, some pkb, some cn => deserializeFromFields cb cab pkb cn
    | _, _, _, _ => .error "failed to unmarshal key and cert data from JSON"
  | some _ => .error "failed to unmarshal key and cert data from JSON"

/-- The postcondition of `GenerateKeyAndCertFromCA` (pki.go lines 260-267)
used by the round-trip claim: the stored raw bytes are the certificates own
raw bytes, and both certificates parse back to themselves (they were
produced by `x509.CreateCertificate` followed by `x509.ParseCertificate`). -/
def Issued (k : KeyAndCert) : Prop :=
  k.certBytes = k.cert.raw ∧ k.caCertBytes = k.caCert.raw ∧
  parseCertificate k.cert.raw = some k.cert ∧
  parseCertificate k.caCert.raw = some k.caCert

instance (k : KeyAndCert) : Decidable (Issued k) := by
  unfold Issued; infer_instance

/-- C3: deserializing the serialization of an issued leaf credential
succeeds and reproduces the raw leaf-certificate bytes, the raw
CA-certificate bytes, the common name and the private key. -/
theorem c3_serialize_roundtrip (k : KeyAndCert) (h : Issued k) :
    ∃ k2, deserializeKeyAndCert (some (serializeKeyAndCert k)) = .ok k2 ∧
      k2.certBytes = k.certBytes ∧ k2.caCertBytes = k.caCertBytes ∧
      k2.cn = k.cn ∧ k2.key = k.key := by
  obtain ⟨h1, h2, h3, h4⟩ := h
  refine ⟨⟨k.cn, k.key, k.caCert, k.caCert.raw, k.cert, k.cert.raw⟩,
    ?_, h1.symm, h2.symm, rfl, rfl⟩
  have e1 : b64decode (String.mk (b64encode k.cert.raw)).data
      = some k.cert.raw := b64_roundtrip k.cert.raw
  have e2 : b64decode (String.mk (b64encode k.caCert.raw)).data
      = some k.caCert.raw := b64_roundtrip k.caCert.raw
  have e3 : b64decode (String.mk (b64encode (marshalPKCS1 k.key))).data
      = some (marshalPKCS1 k.key) := b64_roundtrip (marshalPKCS1 k.key)
  have estep : deserializeKeyAndCert (some (serializeKeyAndCert k)) =
      deserializeFromFields (String.mk (b64encode k.cert.raw))
        (String.mk (b64encode k.caCert.raw))
        (String.mk (b64encode (marshalPKCS1 k.key))) k.cn := rfl
  rw [estep]
  simp only [deserializeFromFields, e1, e2, e3, parsePKCS1_marshal, h3, h4]

/-- Witness credential for `c3_serialize_roundtrip`. -/
def kDemo : KeyAndCert :=
  ⟨"alpha", ⟨61, 3, 13⟩, ⟨[(48 : Byte)]⟩, [(48 : Byte)],
   ⟨[(48 : Byte), (1 : Byte)]⟩, [(48 : Byte), (1 : Byte)]⟩

/-- Witness for `c3_serialize_roundtrip` at a concrete issued credential. -/
theorem c3_serialize_roundtrip_witness :
    Issued kDemo ∧
    ∃ k2, deserializeKeyAndCert (some (serializeKeyAndCert kDemo)) = .ok k2 ∧
      k2.certBytes = kDemo.certBytes ∧ k2.caCertBytes = kDemo.caCertBytes ∧
      k2.cn = kDemo.cn ∧ k2.key = kDemo.key :=
  ⟨by decide, c3_serialize_roundtrip kDemo (by decide)⟩

/-! ## TLS configuration (`KeyAndCert.GetTLSConfig`, pki.go lines 85-109) -/

inductive ClientAuthKind where
  | noClientCert
  | requestClientCert
  | requireAnyClientCert
  | verifyClientCertIfGiven
  | requireAndVerifyClientCert
deriving DecidableEq, Repr

/-- The numeric value of `tls.VersionTLS13`. -/
def versionTLS13 : Nat := 772

structure TLSCertEntry where
  chain : List (List Byte)
  privateKey : RSAPrivateKey
  leaf : Certificate
deriving DecidableEq, Repr

structure TLSConfig where
  insecureSkipVerify : Bool
  minVersion : Nat
  maxVersion : Nat
  clientAuth : ClientAuthKind
  certificates : List TLSCertEntry
  rootCAs : List Certificate
  clientCAs : List Certificate
deriving DecidableEq, Repr

/-- Mirrors `KeyAndCert.GetTLSConfig`; a cert pool is the list of its added
certificates (`x509.NewCertPool` then `AddCert`).  The Go method returns a
nil error unconditionally. -/
def getTLSConfig (k : KeyAndCert) : TLSConfig :=
  let certPool := [k.caCert]
  { insecureSkipVerify := false
    minVersion := versionTLS13
    maxVersion := versionTLS13
    clientAuth := .requireAndVerifyClientCert
    certificates := [⟨[k.cert.raw], k.key, k.cert⟩]
    rootCAs := certPool
    clientCAs := certPool }

/-- C4: for every leaf credential the TLS configuration pins TLS 1.3 exactly
on both ends, requires and verifies the peer certificate, trusts exactly the
embedded CA for roots and client CAs, presents the leaf certificate as the
sole local identity, and never sets insecure-skip-verify. -/
theorem c4_tls_config_pins (k : KeyAndCert) :
    (getTLSConfig k).minVersion = versionTLS13 ∧
    (getTLSConfig k).maxVersion = versionTLS13 ∧
    (getTLSConfig k).clientAuth = ClientAuthKind.requireAndVerifyClientCert ∧
    (getTLSConfig k).rootCAs = [k.caCert] ∧
    (getTLSConfig k).clientCAs = [k.caCert] ∧
    (getTLSConfig k).certificates = [⟨[k.cert.raw], k.key, k.cert⟩] ∧
    (getTLSConfig k).insecureSkipVerify = false :=
  ⟨rfl, rfl, rfl, rfl, rfl, rfl, rfl⟩

/-! ## Plugin stub startup (`plugin.StartPlugin`, pkgs/plugin)

The stub parses its flags (the `-tls_key_and_cert` flag default is the
two-character empty-object literal), deserializes the credential, and binds
a listener only afterwards.  On any failure it logs the error and returns
from `StartPlugin`; the code never calls `os.Exit`, so a startup failure
does not by itself produce a non-zero process exit status. -/

/-- Models top-level JSON text parsing (encoding/json) for the inputs
relevant to stub startup: empty input is invalid JSON; the empty-object
literal parses to an empty object.  Other inputs are outside the scope of
the claims settled against this model and map to `none`. -/
def jsonParseTop (s : String) : Option Json :=
  if s = "" then none
  else if s = "\x7b\x7d" then some (.obj [])
  else none

structure StubArgs where
  port : Option Nat
  tlsKeyAndCert : Option String
  pluginName : Option String
  loggerOpts : Option String

structure StubRun where
  errorLogged : Bool
  listenerBound : Bool
  serverStarted : Bool
  exitNonZero : Bool
deriving DecidableEq, Repr

/-- Mirrors the startup sequence of `StartPlugin` (plugin.go): flag
defaults, credential deserialization, then listener binding (whose OS
outcome is the `listenOk` oracle), then server construction and serving.
`GetTLSConfig` never fails in the source.  The signal-driven shutdown that
follows is concurrent behaviour outside the scope of the claims settled
here.  Every failure path does `return` after logging, so `exitNonZero` is
false on all paths. -/
def startPluginModel (args : StubArgs) (listenOk : Bool) : StubRun :=
  let tlsArg := match args.tlsKeyAndCert with
    | none => "\x7b\x7d"
    | some s => s
  match deserializeKeyAndCert (jsonParseTop tlsArg) with
  | .error _ => ⟨true, false, false, false⟩
  | .ok _ =>
    if listenOk then ⟨false, true, true, false⟩
    else ⟨true, false, false, false⟩

/-- C8 counterexample: with `-tls_key_and_cert` missing (default empty
object) or explicitly empty, the stub logs the decode error and aborts
before binding a listener, but the process is not made to exit non-zero:
`StartPlugin` merely returns, contradicting the claimed non-zero exit. -/
theorem c8_no_nonzero_exit_counterexample :
    (startPluginModel ⟨none, none, none, none⟩ true).errorLogged = true ∧
    (startPluginModel ⟨none, none, none, none⟩ true).listenerBound = false ∧
    (startPluginModel ⟨none, none, none, none⟩ true).exitNonZero = false ∧
    (startPluginModel ⟨none, some "", none, none⟩ true).errorLogged = true ∧
    (startPluginModel ⟨none, some "", none, none⟩ true).listenerBound = false ∧
    (startPluginModel ⟨none, some "", none, none⟩ true).exitNonZero = false :=
  ⟨rfl, rfl, rfl, rfl, rfl, rfl⟩

/-- C8 (amended): with `-tls_key_and_cert` missing or empty, stub startup
aborts before a listener is bound: the credential-decode error is logged and
`StartPlugin` returns without starting the server; no non-zero exit is
forced by the stub. -/
theorem c8_missing_tls_aborts_before_listen (args : StubArgs)
    (listenOk : Bool)
    (h : args.tlsKeyAndCert = none ∨ args.tlsKeyAndCert = some "") :
    (startPluginModel args listenOk).errorLogged = true ∧
    (startPluginModel args listenOk).listenerBound = false ∧
    (startPluginModel args listenOk).serverStarted = false ∧
    (startPluginModel args listenOk).exitNonZero = false := by
  rcases h with h | h <;> simp only [startPluginModel, h] <;>
    exact ⟨rfl, rfl, rfl, rfl⟩

/-- Witness for `c8_missing_tls_aborts_before_listen` with the flag
missing. -/
theorem c8_missing_tls_aborts_before_listen_witness :
    ((⟨none, none, none, none⟩ : StubArgs).tlsKeyAndCert = none ∨
     (⟨none, none, none, none⟩ : StubArgs).tlsKeyAndCert = some "") ∧
    ((startPluginModel ⟨none, none, none, none⟩ true).errorLogged = true ∧
     (startPluginModel ⟨none, none, none, none⟩ true).listenerBound = false ∧
     (startPluginModel ⟨none, none, none, none⟩ true).serverStarted = false ∧
     (startPluginModel ⟨none, none, none, none⟩ true).exitNonZero = false) :=
  ⟨Or.inl rfl, c8_missing_tls_aborts_before_listen ⟨none, none, none, none⟩
    true (Or.inl rfl)⟩

/-! ## Plugin runner and loader (runner/internal)

`LoadPlugin` spawns the plugin subprocess and builds its client;
`pluginsloader.LoadAll` drives the manifest loop with a deferred cleanup on
error; `LoadedPlugins.Close` terminates each plugin and releases its port.
Processes are bookkept with a terminated flag; sending SIGTERM to a process
group is `killPG`.  Credential generation is modelled as succeeding (its
failure paths return before any resource is acquired); the outcomes of the
nondeterministic OS steps (bind test, subprocess start and readiness probe,
client creation) are oracle fields of `PluginStep`. -/

structure ProcState where
  pid : Nat
  terminated : Bool
deriving DecidableEq, Repr

structure RunnerState where
  pm : PMState
  procs : List ProcState
  nextPid : Nat
deriving DecidableEq, Repr

def rsInit : RunnerState := ⟨pmNew, [], 1⟩

def spawnProc (st : RunnerState) : Nat × RunnerState :=
  (st.nextPid, ⟨st.pm, st.procs ++ [⟨st.nextPid, false⟩], st.nextPid + 1⟩)

/-- Sends SIGTERM to the process group of `pid`
(`syscall.Kill(-pid, syscall.SIGTERM)`). -/
def killPG (st : RunnerState) (pid : Nat) : RunnerState :=
  ⟨st.pm, st.procs.map (fun pr => if pr.pid = pid then ⟨pr.pid, true⟩ else pr),
   st.nextPid⟩

inductive SpawnBehavior where
  | startFail
  | ready
  | timeoutKilled
  | cancelledKilled
deriving DecidableEq, Repr

structure PluginStep where
  name : String
  kind : String
  bind : Nat → Bool
  spawnB : SpawnBehavior
  clientOk : Bool

structure PluginServerConf where
  port : Nat
  pid : Nat
deriving DecidableEq, Repr

/-- Mirrors `buildAndRunPlugin` (pluginrunner.go lines 37-102): start
failure yields an error with no process; readiness returns the running
process; a readiness timeout or context cancellation kills the process
group and errors. -/
def buildAndRunModel (sb : SpawnBehavior) (port : Nat) (st : RunnerState) :
    Except String PluginServerConf × RunnerState :=
  match sb with
  | .startFail => (.error "failed to start plugin process", st)
  | .ready =>
    let s := spawnProc st
    (.ok ⟨port, s.1⟩, s.2)
  | .timeoutKilled =>
    let s := spawnProc st
    (.error "plugin failed to start within startup timeout", killPG s.2 s.1)
  | .cancelledKilled =>
    let s := spawnProc st
    (.error "context cancelled while waiting for plugin to start",
     killPG s.2 s.1)

/-- Mirrors `startPluginServer` (pluginrunner.go lines 136-176): generate
the server credential, acquire a port, run the plugin; on a start error
release the port (ignoring any release error) and propagate. -/
def startPluginServerModel (step : PluginStep) (st : RunnerState) :
    Except String PluginServerConf × RunnerState :=
  let g := getPort step.bind st.pm
  let st1 : RunnerState := ⟨g.state, st.procs, st.nextPid⟩
  match g.res with
  | .error e => (.error e, st1)
  | .ok port =>
    let r := if step.kind = "build_and_run" then
        buildAndRunModel step.spawnB port st1
      else (.error "plugin kind is not supported", st1)
    match r.1 with
    | .error e =>
      let rel := releasePort r.2.pm port
      (.error e, ⟨rel.2, r.2.procs, r.2.nextPid⟩)
    | .ok conf => (.ok conf, r.2)

structure LoadedEntry where
  port : Nat
  pid : Nat
deriving DecidableEq, Repr

/-- Mirrors `LoadPlugin` (pluginrunner.go lines 220-244): on client-creation
failure the spawned process group is killed, but the acquired port is not
released on that path. -/
def loadPluginModel (step : PluginStep) (st : RunnerState) :
    Except String LoadedEntry × RunnerState :=
  let r := startPluginServerModel step st
  match r.1 with
  | .error e => (.error e, r.2)
  | .ok conf =>
    if step.clientOk then (.ok ⟨conf.port, conf.pid⟩, r.2)
    else (.error "failed to create client", killPG r.2 conf.pid)

structure LoadState where
  rs : RunnerState
  pluginsMap : List (String × LoadedEntry)
deriving DecidableEq, Repr

/-- One iteration of the close loop of `LoadedPlugins.Close` (types.go lines
35-51): send SIGTERM to the plugin process group, recording the last error
when the signal fails (`killFails` oracle), then release the port when it is
nonzero, ignoring any release error. -/
def closeEntry (killFails : String → Bool) (kv : String × LoadedEntry)
    (acc : Option String × RunnerState) : Option String × RunnerState :=
  let step1 : Option String × RunnerState :=
    if killFails kv.1 then (some "failed to terminate plugin process", acc.2)
    else (acc.1, killPG acc.2 kv.2.pid)
  let rs2 := if kv.2.port ≠ 0 then
      ⟨(releasePort step1.2.pm kv.2.port).2, step1.2.procs, step1.2.nextPid⟩
    else step1.2
  (step1.1, rs2)

/-- Mirrors `LoadedPlugins.Close` (types.go lines 24-59): snapshot the map
under the lock, close every plugin, return the last close error.  The Go
code never clears `pluginsMap`, so the state keeps the full mapping. -/
def closeModel (killFails : String → Bool) (ls : LoadState) :
    Option String × LoadState :=
  let r := ls.pluginsMap.foldl (fun acc kv => closeEntry killFails kv acc)
    (none, ls.rs)
  (r.1, ⟨r.2, ls.pluginsMap⟩)

/-- Mirrors the loop of `pluginsloader.LoadAll` (pluginsloader.go lines
52-71) with the deferred cleanup on a load error (lines 43-50); process
terminations during that cleanup succeed. -/
def loadAllGo : List PluginStep → LoadState → Except String Unit × LoadState
  | [], ls => (.ok (), ls)
  | step :: rest, ls =>
    let r := loadPluginModel step ls.rs
    match r.1 with
    | .error e =>
      let c := closeModel (fun _ => false) ⟨r.2, ls.pluginsMap⟩
      (.error e, c.2)
    | .ok entry => loadAllGo rest ⟨r.2, ls.pluginsMap ++ [(step.name, entry)]⟩

/-- Mirrors `pluginsloader.LoadAll` from a fresh port manager and process
table. -/
def loadAllModel (steps : List PluginStep) : Except String Unit × LoadState :=
  loadAllGo steps ⟨rsInit, []⟩

/-- The failing manifest for C1: one plugin that spawns and reports ready
but whose client creation fails. -/
def c1steps : List PluginStep :=
  [⟨"p", "build_and_run", fun _ => true, .ready, false⟩]

/-- C1 (code bug): `LoadAll` on `c1steps` returns an error (no registry) and
the subprocess has been signalled, but port 40000 acquired for the plugin is
still leased after the failed load: `LoadPlugin` does not release the port
on the client-creation failure path, and the failed plugin was never added
to the map that the deferred cleanup closes. -/
theorem c1_client_failure_leaks_port :
    (loadAllModel c1steps).1 = .error "failed to create client" ∧
    (loadAllModel c1steps).2.rs.pm.usedPorts = [40000] ∧
    (loadAllModel c1steps).2.rs.procs = [⟨1, true⟩] ∧
    (loadAllModel c1steps).2.pluginsMap = [] :=
  ⟨rfl, rfl, rfl, rfl⟩

/-- The registry state for C2: one loaded plugin on port 40000 with pid 1. -/
def c2state : LoadState :=
  ⟨⟨⟨[40000], 40000⟩, [⟨1, false⟩], 2⟩, [("p", ⟨40000, 1⟩)]⟩

/-- C2 (code bug): the first `Close` succeeds and releases the port, but the
name-to-plugin mapping is not cleared (the code comment says snapshot and
clear; the code only snapshots), so a second `Close` re-signals the
already-terminated process group; when that signal fails (ESRCH) the second
call returns an error rather than nil. -/
theorem c2_close_not_cleared :
    (closeModel (fun _ => false) c2state).1 = none ∧
    (closeModel (fun _ => false) c2state).2.pluginsMap = [("p", ⟨40000, 1⟩)] ∧
    (closeModel (fun _ => true) (closeModel (fun _ => false) c2state).2).1 =
      some "failed to terminate plugin process" :=
  ⟨rfl, rfl, rfl⟩

end GrpcPlugin
